import Mathlib

/-!
Verification development for the `dam-networks` switch engine
(`src/switches/simple.rs`, `src/switches/policy.rs`, `src/switches/routing.rs`).

The Rust code is shallowly embedded: `FxHashMap` port mappings become
association lists (their iteration order made explicit as list order),
`FxHashSet` target sets become duplicate-free lists, the per-switch
`TimeManager` becomes a `Nat` clock, and the external `dam` channel
endpoints are modelled from the spec's boundary contracts (§6): an input
endpoint is the queue of items it will deliver plus a closed flag and the
lower-bound time it reports while empty; an output endpoint is the list of
elements enqueued on it (channels are unbounded as in the repository's
test, so `wait_until_available` never blocks and is modelled as the
presence check performed by the `unwrap` in the wait loop).
-/

set_option autoImplicit false

namespace DamNetworks

/-- Virtual time, `dam::types::Time` restricted to the tick counter. -/
abbrev Time := Nat

/-- Port identifiers are `usize` in the source. -/
abbrev PortId := Nat

/-- Modelled from the spec: an input endpoint (`Receiver<T>`), per the §6
boundary contract.  `queue` is the stream of `(timestamp, data)` items it
will deliver, `closed` says whether the sender has closed the channel
after `queue` is exhausted, and `senderTime` is the lower bound the
endpoint reports through `next_event` while it is empty but still open. -/
structure InChan (T : Type) where
  queue : List (Time × T)
  closed : Bool
  senderTime : Time
  deriving DecidableEq, Repr

/-- An output endpoint (`Sender<T>`), modelled as the list of channel
elements enqueued on it, in order. -/
abbrev OutChan (T : Type) := List (Time × T)

/-- `dam::channel::utils::EventTime`: the next-event status an input
endpoint reports, per §4.2/§6 of the spec. -/
inductive EventTime where
  | Ready : Time → EventTime
  | Nothing : Time → EventTime
  | Closed : EventTime
  deriving DecidableEq, Repr

/-- First-match lookup in an association list; embeds `FxHashMap::get`. -/
def lookupA {κ : Type} [DecidableEq κ] {α : Type} : List (κ × α) → κ → Option α
  | [], _ => none
  | (k, v) :: rest, key => if k = key then some v else lookupA rest key

/-- Replace the value at the first entry with the given key, leaving the
list unchanged if the key is absent. -/
def updateAssoc {κ : Type} [DecidableEq κ] {α : Type} :
    List (κ × α) → κ → (α → α) → List (κ × α)
  | [], _, _ => []
  | (k, v) :: rest, key, f =>
      if k = key then (k, f v) :: rest else (k, v) :: updateAssoc rest key f

/-- `FxHashMap::insert`: returns the displaced old value (if any) together
with the updated map.  A fresh key is appended, matching insertion order as
the explicit iteration order of the model. -/
def insertA {κ : Type} [DecidableEq κ] {α : Type} (m : List (κ × α)) (k : κ) (v : α) :
    Option α × List (κ × α) :=
  match lookupA m k with
  | some old => (some old, updateAssoc m k (fun _ => v))
  | none => (none, m ++ [(k, v)])

/-- `SimpleSwitch<T, LT, PolicyType>` with the static-table policy, plus the
attachment counters recording `attach_receiver`/`attach_sender` calls on the
scheduling substrate. -/
structure SwitchState (T LT : Type) where
  inMap : List (PortId × InChan T)
  outMap : List (PortId × OutChan T)
  policy : List (LT × List PortId)
  latency : Nat
  clock : Time
  attachedReceivers : Nat
  attachedSenders : Nat
  deriving DecidableEq, Repr

/-- `routing::Port<T>`: an id with an optional input endpoint and an
optional output endpoint. -/
structure Port (T : Type) where
  id : PortId
  input : Option (InChan T)
  output : Option (OutChan T)
  deriving DecidableEq, Repr

/-- Modelled from the spec: `Receiver::next_event` per the §6 contract —
`Ready T` when an item with timestamp `T` is at the head, `Closed` when the
channel is exhausted and the sender is gone, `Nothing L` (lower bound `L`)
otherwise. -/
def nextEvent {T : Type} (ch : InChan T) : EventTime :=
  match ch.queue with
  | (t, _) :: _ => .Ready t
  | [] => if ch.closed then .Closed else .Nothing ch.senderTime

/-- The filter of `simple.rs` line 146: `peek()` returns `Something x` with
`x.time <= t`. -/
def peekLE {T : Type} (ch : InChan T) (t : Time) : Bool :=
  match ch.queue with
  | (tt, _) :: _ => decide (tt ≤ t)
  | [] => false

/-- Ready set as the surrounding code requires it (the port ids — the keys
of `in_map` — whose peeked item has timestamp `≤ t`).  `run` looks the
members of the ready set up as keys (`in_map.get(&input_port).unwrap()`),
and the single-input path of `advance_to_next_event` produces the key, so
this is the form the engine needs; the source's multi-input path instead
collects enumeration indices of the value iteration, embedded separately
as `readySetSource` below. -/
def readySetKeys {T : Type} (inMap : List (PortId × InChan T)) (t : Time) : List PortId :=
  (inMap.filter (fun pc => peekLE pc.2 t)).map (fun pc => pc.1)

/-- Literal embedding of `simple.rs` lines 140–152: enumerate
`in_map.values()`, keep the positions whose channel peeks `Something` with
timestamp `≤ t`, and collect those positions. -/
def readySetSource {T : Type} (inMap : List (PortId × InChan T)) (t : Time) : List Nat :=
  (((inMap.map (fun pc => pc.2)).enum).filter (fun ic => peekLE ic.2 t)).map
    (fun ic => ic.1)

/-- Minimum of a list of times, `Iterator::min`. -/
def minList : List Nat → Option Nat
  | [] => none
  | t :: rest =>
    some (match minList rest with
          | none => t
          | some m => min t m)

/-- The times of the `Ready` statuses among a list of events. -/
def readyTimesOf (events : List EventTime) : List Time :=
  events.filterMap (fun e => match e with | .Ready t => some t | _ => none)

/-- The lower bounds of the `Nothing` statuses among a list of events. -/
def nothingTimesOf (events : List EventTime) : List Time :=
  events.filterMap (fun e => match e with | .Nothing t => some t | _ => none)

/-- Outcome of one pass through `advance_to_next_event`'s decision logic:
`quit` returns `Event::Quit`, `ready c set` returns `Event::Ready(set)`
with the clock advanced to `c`, `retry c` is the `Nothing` fallback that
advances the clock to `c` and loops, and `blocked` is the single-input
path suspended inside `peek_next` on an empty, still-open channel. -/
inductive EventOutcome where
  | quit : EventOutcome
  | blocked : EventOutcome
  | ready : Time → List PortId → EventOutcome
  | retry : Time → EventOutcome
  deriving DecidableEq, Repr

/-- The multi-input branch of `advance_to_next_event` (`simple.rs` lines
131–160), one pass of its inner loop.  The clock jumps are
`TimeManager::advance`, modelled from the spec as monotone (`max`):
virtual time "advances only forward".  The minimum over `EventTime`
values is modelled from the spec's §4.2 description: the minimum `T`
among `Ready` statuses if one exists, else the minimum lower bound among
`Nothing` statuses, else all `Closed`. -/
def eventMulti {T : Type} (clock : Time) (inMap : List (PortId × InChan T)) : EventOutcome :=
  match minList (readyTimesOf (inMap.map (fun pc => nextEvent pc.2))) with
  | some t => .ready (max clock t) (readySetKeys inMap t)
  | none =>
    match minList (nothingTimesOf (inMap.map (fun pc => nextEvent pc.2))) with
    | some l => .retry (max clock (l + 1))
    | none => .quit

/-- One decision pass of `SimpleSwitch::advance_to_next_event`
(`simple.rs` lines 117–162): `Quit` on an empty input mapping, the
`peek_next` path for a single input, and `eventMulti` otherwise. -/
def eventStep {T LT : Type} (st : SwitchState T LT) : EventOutcome :=
  match st.inMap with
  | [] => .quit
  | [(id, ch)] =>
    match ch.queue with
    | _ :: _ => .ready st.clock [id]
    | [] => if ch.closed then .quit else .blocked
  | _ => eventMulti st.clock st.inMap

/-- `Policy::route` for the static-table (`FxHashMap`) implementation
(`policy.rs` lines 9–14): `self.get(&target)`, cloning the stored set on a
hit and panicking (`none`) on a miss. -/
def route {LT : Type} [DecidableEq LT] (policy : List (LT × List PortId)) (target : LT) :
    Option (List PortId) :=
  lookupA policy target

/-- `route` through the `&mut self` interface: the returned set is paired
with the policy state after the call, which the static table leaves
unchanged (it only clones). -/
def routeMut {LT : Type} [DecidableEq LT] (policy : List (LT × List PortId)) (target : LT) :
    Option (List PortId × List (LT × List PortId)) :=
  match route policy target with
  | some s => some (s, policy)
  | none => none

/-- `occupied_outputs.intersection(&targets).count() == 0`, negated:
`true` iff some occupied output lies in the target set. -/
def intersects (occupied targets : List PortId) : Bool :=
  occupied.any (fun x => targets.contains x)

/-- Enqueue one channel element on every target output (`simple.rs` lines
61–69); each target's queue gets the element appended. -/
def enqueueAll {T : Type} (om : List (PortId × OutChan T)) (targets : List PortId)
    (e : Time × T) : List (PortId × OutChan T) :=
  targets.foldl (fun m x => updateAssoc m x (fun q => q ++ [e])) om

/-- Pop the head item of the input channel at `port` (`Receiver::dequeue`,
`simple.rs` line 51). -/
def dequeueAt {T : Type} (inMap : List (PortId × InChan T)) (port : PortId) :
    List (PortId × InChan T) :=
  updateAssoc inMap port (fun ch => { ch with queue := ch.queue.tail })

/-- The body of `run`'s per-input loop (`simple.rs` lines 40–72) for one
member of the ready set, threading the `occupied_outputs` accumulator.
`none` embeds a panic: the ready port missing or empty (lines 40–42), a
routing miss (`policy.rs` line 12), or a target output id absent from
`out_map` (the `unwrap` in the wait loop, lines 54–58, which fires before
any enqueue happens). -/
def processInput {T LT : Type} [DecidableEq LT] (dest : T → LT) (st : SwitchState T LT)
    (occ : List PortId) (port : PortId) : Option (SwitchState T LT × List PortId) :=
  match lookupA st.inMap port with
  | none => none
  | some ch =>
    match ch.queue with
    | [] => none
    | (_, d) :: _ =>
      match route st.policy (dest d) with
      | none => none
      | some targets =>
        if intersects occ targets then some (st, occ)
        else if targets.all (fun x => (lookupA st.outMap x).isSome) then
          some ({ st with
                    inMap := dequeueAt st.inMap port,
                    outMap := enqueueAll st.outMap targets (st.clock + st.latency, d) },
                occ ++ targets)
        else none

/-- Process a whole ready set in order (`simple.rs` lines 38–73), starting
from the given `occupied_outputs` accumulator. -/
def processPass {T LT : Type} [DecidableEq LT] (dest : T → LT) :
    SwitchState T LT → List PortId → List PortId → Option (SwitchState T LT)
  | st, [], _ => some st
  | st, port :: rest, occ =>
    match processInput dest st occ port with
    | none => none
    | some (st', occ') => processPass dest st' rest occ'

/-- One iteration of `SimpleSwitch::run`'s outer loop (`simple.rs` lines
32–75): event determination, then — on a ready set — the processing pass
followed by the unconditional `self.time.incr_cycles(1)` of line 74.
`Sum.inl` is the `return` (termination), `Sum.inr` the state carried into
the next iteration; `none` embeds a panic or an unresolvable block. -/
def runStep {T LT : Type} [DecidableEq LT] (dest : T → LT) (st : SwitchState T LT) :
    Option (SwitchState T LT ⊕ SwitchState T LT) :=
  match eventStep st with
  | .quit => some (Sum.inl st)
  | .blocked => none
  | .retry c => some (Sum.inr { st with clock := c })
  | .ready c set =>
    (processPass dest { st with clock := c } set []).map
      (fun st2 => Sum.inr { st2 with clock := st2.clock + 1 })

/-- At most `n` iterations of the run loop; the `Bool` records whether the
loop terminated within the budget. -/
def runN {T LT : Type} [DecidableEq LT] (dest : T → LT) :
    Nat → SwitchState T LT → Option (SwitchState T LT × Bool)
  | 0, st => some (st, false)
  | n + 1, st =>
    match runStep dest st with
    | none => none
    | some (Sum.inl stF) => some (stF, true)
    | some (Sum.inr st') => runN dest n st'

/-- `SimpleSwitch::add_port`, output half (`simple.rs` lines 108–114):
attach the sender to the substrate, insert it, and assert the slot was
empty.  The `Bool` is `false` when the assertion fires (panic). -/
def addPortOutput {T LT : Type} (sw : SwitchState T LT) (p : Port T) :
    SwitchState T LT × Bool :=
  match p.output with
  | none => (sw, true)
  | some snd =>
    ({ sw with attachedSenders := sw.attachedSenders + 1,
               outMap := (insertA sw.outMap p.id snd).2 },
     (insertA sw.outMap p.id snd).1.isNone)

/-- `SimpleSwitch::add_port` (`simple.rs` lines 99–115).  For each present
side the endpoint is attached to the scheduling substrate and inserted
into the mapping first; only then does the assertion check whether the id
was already occupied.  A failed input-side assertion panics before the
output side runs. -/
def addPort {T LT : Type} (sw : SwitchState T LT) (p : Port T) :
    SwitchState T LT × Bool :=
  match p.input with
  | none => addPortOutput sw p
  | some rcv =>
    if (insertA sw.inMap p.id rcv).1.isSome then
      ({ sw with attachedReceivers := sw.attachedReceivers + 1,
                 inMap := (insertA sw.inMap p.id rcv).2 }, false)
    else
      addPortOutput { sw with attachedReceivers := sw.attachedReceivers + 1,
                              inMap := (insertA sw.inMap p.id rcv).2 } p

/-- Clock of the continuation state of a `runStep` result (`0` when the
step terminated, panicked, or blocked); used to state closed facts about
concrete runs. -/
def contClock {T LT : Type} : Option (SwitchState T LT ⊕ SwitchState T LT) → Time
  | some (Sum.inr s) => s.clock
  | _ => 0

/-- Clock of the final state of a `runN` result (`0` on panic/block). -/
def runClock {T LT : Type} : Option (SwitchState T LT × Bool) → Time
  | some (s, _) => s.clock
  | none => 0

/-- Trivial destination function for concrete `Unit`-payload examples. -/
def destU : Unit → Unit := fun _ => ()

/-- A concrete open input channel holding one item at time `t`. -/
def chR (t : Time) : InChan Unit := ⟨[(t, ())], false, 0⟩

/-- A concrete empty, still-open input channel reporting lower bound `l`. -/
def chN (l : Time) : InChan Unit := ⟨[], false, l⟩

/-- A concrete exhausted-and-closed input channel. -/
def chC : InChan Unit := ⟨[], true, 0⟩

/-- Concrete two-input switch: both inputs hold an item at time 5, both
items route to output 0, the clock starts at 0. -/
def stC2 : SwitchState Unit Unit :=
  { inMap := [(0, chR 5), (1, chR 5)]
    outMap := [(0, [])]
    policy := [((), [0])]
    latency := 0
    clock := 0
    attachedReceivers := 2
    attachedSenders := 1 }

/-- Concrete single-input switch: one item at time 2, latency 1. -/
def stW : SwitchState Unit Unit :=
  { inMap := [(0, chR 2)]
    outMap := [(0, [])]
    policy := [((), [0])]
    latency := 1
    clock := 0
    attachedReceivers := 1
    attachedSenders := 1 }

/-- Concrete two-input switch with both inputs empty but open, reporting
lower bounds 4 and 7, clock at 2. -/
def stC8 : SwitchState Unit Unit :=
  { inMap := [(0, chN 4), (1, chN 7)]
    outMap := []
    policy := []
    latency := 0
    clock := 2
    attachedReceivers := 2
    attachedSenders := 0 }

/-- Concrete switch with no input ports. -/
def stEmpty : SwitchState Unit Unit :=
  { inMap := []
    outMap := [(0, [])]
    policy := [((), [0])]
    latency := 0
    clock := 0
    attachedReceivers := 0
    attachedSenders := 1 }

/-- Concrete two-input switch with both inputs exhausted and closed. -/
def stClosed2 : SwitchState Unit Unit :=
  { inMap := [(0, chC), (1, chC)]
    outMap := []
    policy := []
    latency := 0
    clock := 3
    attachedReceivers := 2
    attachedSenders := 0 }

/-- Concrete single-input switch whose input is exhausted and closed. -/
def stSingleClosed : SwitchState Unit Unit :=
  { inMap := [(0, chC)]
    outMap := []
    policy := []
    latency := 0
    clock := 1
    attachedReceivers := 1
    attachedSenders := 0 }

/-- Concrete input mapping whose port ids (3 and 7) differ from the
positions (0 and 1) of the value iteration; both channels hold an item at
time 5. -/
def inMapC1 : List (PortId × InChan Unit) := [(3, chR 5), (7, chR 5)]

/-- Concrete port carrying both an input and an output endpoint, id 4. -/
def portFresh : Port Unit := { id := 4, input := some (chR 1), output := some [] }

/-- Concrete port carrying only an input endpoint, id 4. -/
def portDupIn : Port Unit := { id := 4, input := some (chR 1), output := none }

/-- Concrete port carrying only an output endpoint under the
already-occupied output id 9, with one element distinguishing it from the
endpoint it displaces. -/
def portDupOut : Port Unit := { id := 9, input := none, output := some [(1, ())] }

/-- Concrete static routing table sending the one destination to outputs
1 and 2. -/
def policyW : List (Unit × List PortId) := [((), [1, 2])]

/-- Concrete switch that already has input id 4 and output id 9 occupied. -/
def swDup : SwitchState Unit Unit :=
  { inMap := [(4, chN 0)]
    outMap := [(9, [])]
    policy := []
    latency := 0
    clock := 0
    attachedReceivers := 1
    attachedSenders := 1 }

@[simp] theorem lookupA_nil {κ : Type} [DecidableEq κ] {α : Type} (key : κ) :
    lookupA ([] : List (κ × α)) key = none := rfl

@[simp] theorem lookupA_cons {κ : Type} [DecidableEq κ] {α : Type}
    (k : κ) (v : α) (rest : List (κ × α)) (key : κ) :
    lookupA ((k, v) :: rest) key = if k = key then some v else lookupA rest key := rfl

theorem lookupA_updateAssoc_self {κ : Type} [DecidableEq κ] {α : Type}
    (m : List (κ × α)) (k : κ) (f : α → α) :
    lookupA (updateAssoc m k f) k = (lookupA m k).map f := by
  induction m with
  | nil => simp [updateAssoc]
  | cons hd tl ih =>
    obtain ⟨k0, v0⟩ := hd
    by_cases h : k0 = k
    · subst h; simp [updateAssoc]
    · simp [updateAssoc, h, ih]

theorem lookupA_updateAssoc_ne {κ : Type} [DecidableEq κ] {α : Type}
    (m : List (κ × α)) (k key : κ) (f : α → α) (hne : key ≠ k) :
    lookupA (updateAssoc m k f) key = lookupA m key := by
  induction m with
  | nil => simp [updateAssoc]
  | cons hd tl ih =>
    obtain ⟨k0, v0⟩ := hd
    by_cases h : k0 = k
    · subst h
      have hk : ¬ k0 = key := fun h' => hne h'.symm
      simp [updateAssoc, lookupA_cons, hk]
    · simp [updateAssoc, h, ih]

theorem lookupA_mem {κ : Type} [DecidableEq κ] {α : Type}
    (m : List (κ × α)) (key : κ) (v : α) (h : lookupA m key = some v) :
    (key, v) ∈ m := by
  induction m with
  | nil => simp [lookupA] at h
  | cons hd tl ih =>
    obtain ⟨k0, v0⟩ := hd
    by_cases hk : k0 = key
    · subst hk
      simp [lookupA] at h
      subst h; exact List.mem_cons_self _ _
    · simp [lookupA, hk] at h
      exact List.mem_cons_of_mem _ (ih h)

theorem lookupA_eq_none_of_not_mem {κ : Type} [DecidableEq κ] {α : Type}
    (m : List (κ × α)) (key : κ) (h : ∀ v, (key, v) ∉ m) :
    lookupA m key = none := by
  induction m with
  | nil => rfl
  | cons hd tl ih =>
    obtain ⟨k0, v0⟩ := hd
    by_cases hk : k0 = key
    · subst hk
      exact absurd (List.mem_cons_self _ _) (h v0)
    · simp [lookupA, hk]
      exact ih (fun v hv => h v (List.mem_cons_of_mem _ hv))

theorem lookupA_append_self {κ : Type} [DecidableEq κ] {α : Type}
    (m : List (κ × α)) (k : κ) (v : α) (h : lookupA m k = none) :
    lookupA (m ++ [(k, v)]) k = some v := by
  induction m with
  | nil => simp [lookupA]
  | cons hd tl ih =>
    obtain ⟨k0, v0⟩ := hd
    by_cases hk : k0 = k
    · simp [lookupA, hk] at h
    · simp [lookupA, hk] at h ⊢
      exact ih h

theorem lookupA_enqueueAll_not_mem {T : Type} (om : List (PortId × OutChan T))
    (targets : List PortId) (e : Time × T) (x : PortId) (hx : x ∉ targets) :
    lookupA (enqueueAll om targets e) x = lookupA om x := by
  induction targets generalizing om with
  | nil => rfl
  | cons y ys ih =>
    have hxy : x ≠ y := fun h => hx (h ▸ List.mem_cons_self _ _)
    have hxys : x ∉ ys := fun h => hx (List.mem_cons_of_mem _ h)
    show lookupA (enqueueAll (updateAssoc om y _) ys e) x = lookupA om x
    rw [ih _ hxys, lookupA_updateAssoc_ne _ _ _ _ hxy]

theorem lookupA_enqueueAll_mem {T : Type} (om : List (PortId × OutChan T))
    (targets : List PortId) (e : Time × T) (x : PortId)
    (hnd : targets.Nodup) (hx : x ∈ targets) :
    lookupA (enqueueAll om targets e) x = (lookupA om x).map (fun q => q ++ [e]) := by
  induction targets generalizing om with
  | nil => cases hx
  | cons y ys ih =>
    have hnys : y ∉ ys := (List.nodup_cons.mp hnd).1
    have hndys : ys.Nodup := (List.nodup_cons.mp hnd).2
    show lookupA (enqueueAll (updateAssoc om y (fun q => q ++ [e])) ys e) x = _
    rcases List.mem_cons.mp hx with hxy | hxys
    · subst hxy
      rw [lookupA_enqueueAll_not_mem _ _ _ _ hnys, lookupA_updateAssoc_self]
    · have hxy : x ≠ y := fun h => hnys (h ▸ hxys)
      rw [ih _ hndys hxys, lookupA_updateAssoc_ne _ _ _ _ hxy]

theorem processInput_clock {T LT : Type} [DecidableEq LT] (dest : T → LT)
    (st : SwitchState T LT) (occ : List PortId) (port : PortId)
    (st' : SwitchState T LT) (occ' : List PortId)
    (h : processInput dest st occ port = some (st', occ')) :
    st'.clock = st.clock := by
  unfold processInput at h
  split at h
  · exact Option.noConfusion h
  · split at h
    · exact Option.noConfusion h
    · split at h
      · exact Option.noConfusion h
      · split at h
        · simp only [Option.some.injEq, Prod.mk.injEq] at h
          rw [← h.1]
        · split at h
          · simp only [Option.some.injEq, Prod.mk.injEq] at h
            rw [← h.1]
          · exact Option.noConfusion h

theorem processPass_clock {T LT : Type} [DecidableEq LT] (dest : T → LT)
    (ready : List PortId) (st : SwitchState T LT) (occ : List PortId)
    (st2 : SwitchState T LT) (h : processPass dest st ready occ = some st2) :
    st2.clock = st.clock := by
  induction ready generalizing st occ with
  | nil =>
    simp [processPass] at h
    rw [h]
  | cons port rest ih =>
    unfold processPass at h
    rcases hpi : processInput dest st occ port with _ | ⟨st', occ'⟩ <;> rw [hpi] at h
    · exact absurd h (by simp)
    · rw [ih st' occ' h]
      exact processInput_clock dest st occ port st' occ' hpi

theorem eventMulti_ready_clock_le {T : Type} (clock : Time)
    (inMap : List (PortId × InChan T)) (c : Time) (set : List PortId)
    (h : eventMulti clock inMap = .ready c set) : clock ≤ c := by
  unfold eventMulti at h
  split at h
  · injection h with h1 h2
    rw [← h1]
    exact Nat.le_max_left _ _
  · split at h
    · exact EventOutcome.noConfusion h
    · exact EventOutcome.noConfusion h

theorem eventMulti_retry_clock_le {T : Type} (clock : Time)
    (inMap : List (PortId × InChan T)) (c : Time)
    (h : eventMulti clock inMap = .retry c) : clock ≤ c := by
  unfold eventMulti at h
  split at h
  · exact EventOutcome.noConfusion h
  · split at h
    · injection h with h1
      rw [← h1]
      exact Nat.le_max_left _ _
    · exact EventOutcome.noConfusion h

theorem eventStep_ready_clock_le {T LT : Type} (st : SwitchState T LT)
    (c : Time) (set : List PortId) (h : eventStep st = .ready c set) :
    st.clock ≤ c := by
  unfold eventStep at h
  split at h
  · exact EventOutcome.noConfusion h
  · split at h
    · injection h with h1 h2
      rw [← h1]
    · split at h
      · exact EventOutcome.noConfusion h
      · exact EventOutcome.noConfusion h
  · exact eventMulti_ready_clock_le st.clock st.inMap c set h

theorem eventStep_retry_clock_le {T LT : Type} (st : SwitchState T LT)
    (c : Time) (h : eventStep st = .retry c) : st.clock ≤ c := by
  unfold eventStep at h
  split at h
  · exact EventOutcome.noConfusion h
  · split at h
    · exact EventOutcome.noConfusion h
    · split at h
      · exact EventOutcome.noConfusion h
      · exact EventOutcome.noConfusion h
  · exact eventMulti_retry_clock_le st.clock st.inMap c h

theorem runStep_quit {T LT : Type} [DecidableEq LT] (dest : T → LT)
    (st : SwitchState T LT) (he : eventStep st = .quit) :
    runStep dest st = some (Sum.inl st) := by
  unfold runStep
  rw [he]

theorem runStep_retry {T LT : Type} [DecidableEq LT] (dest : T → LT)
    (st : SwitchState T LT) (c : Time) (he : eventStep st = .retry c) :
    runStep dest st = some (Sum.inr { st with clock := c }) := by
  unfold runStep
  rw [he]

theorem runStep_ready {T LT : Type} [DecidableEq LT] (dest : T → LT)
    (st : SwitchState T LT) (c : Time) (set : List PortId)
    (he : eventStep st = .ready c set) :
    runStep dest st = (processPass dest { st with clock := c } set []).map
      (fun st2 => Sum.inr { st2 with clock := st2.clock + 1 }) := by
  unfold runStep
  rw [he]

theorem runStep_inl_eq {T LT : Type} [DecidableEq LT] (dest : T → LT)
    (st s : SwitchState T LT) (h : runStep dest st = some (Sum.inl s)) : s = st := by
  rcases he : eventStep st with _ | _ | ⟨c, set⟩ | c
  · rw [runStep_quit dest st he] at h
    simp at h
    exact h.symm
  · unfold runStep at h
    rw [he] at h
    exact Option.noConfusion h
  · rw [runStep_ready dest st c set he] at h
    rcases hp : processPass dest { st with clock := c } set [] with _ | st2 <;>
      rw [hp] at h <;> simp at h
  · rw [runStep_retry dest st c he] at h
    simp at h

theorem runStep_inr_clock_le {T LT : Type} [DecidableEq LT] (dest : T → LT)
    (st s : SwitchState T LT) (h : runStep dest st = some (Sum.inr s)) :
    st.clock ≤ s.clock := by
  rcases he : eventStep st with _ | _ | ⟨c, set⟩ | c
  · rw [runStep_quit dest st he] at h
    simp at h
  · unfold runStep at h
    rw [he] at h
    exact Option.noConfusion h
  · rw [runStep_ready dest st c set he] at h
    rcases hp : processPass dest { st with clock := c } set [] with _ | st2 <;>
      rw [hp] at h <;> simp at h
    have hc2 : st2.clock = c := processPass_clock dest set _ [] st2 hp
    have hcle := eventStep_ready_clock_le st c set he
    have hclock : s.clock = st2.clock + 1 := by rw [← h]
    calc st.clock ≤ c := hcle
      _ = st2.clock := hc2.symm
      _ ≤ st2.clock + 1 := Nat.le_succ _
      _ = s.clock := hclock.symm
  · rw [runStep_retry dest st c he] at h
    simp only [Option.some.injEq, Sum.inr.injEq] at h
    have hcle := eventStep_retry_clock_le st c he
    have hclock : s.clock = c := by rw [← h]
    rw [hclock]
    exact hcle

theorem minList_eq_none (l : List Nat) : minList l = none ↔ l = [] := by
  cases l <;> simp [minList]

theorem nextEvent_closed_iff {T : Type} (ch : InChan T) :
    nextEvent ch = .Closed ↔ ch.queue = [] ∧ ch.closed = true := by
  unfold nextEvent
  rcases hq : ch.queue with _ | ⟨⟨t, d⟩, rest⟩
  · by_cases hc : ch.closed <;> simp [hc]
  · simp

theorem events_all_closed_iff (es : List EventTime) :
    (readyTimesOf es = [] ∧ nothingTimesOf es = []) ↔ ∀ e ∈ es, e = .Closed := by
  induction es with
  | nil => simp [readyTimesOf, nothingTimesOf]
  | cons e rest ih =>
    cases e with
    | Ready t => simp [readyTimesOf, List.filterMap_cons]
    | Nothing t => simp [readyTimesOf, nothingTimesOf, List.filterMap_cons]
    | Closed =>
      simp only [readyTimesOf, nothingTimesOf, List.filterMap_cons] at ih ⊢
      simpa using ih

theorem eventMulti_quit_iff {T : Type} (clock : Time) (im : List (PortId × InChan T)) :
    eventMulti clock im = .quit ↔ ∀ pc ∈ im, nextEvent pc.2 = .Closed := by
  constructor
  · intro h
    rcases hr : minList (readyTimesOf (im.map (fun pc => nextEvent pc.2))) with _ | t
    · rcases hn : minList (nothingTimesOf (im.map (fun pc => nextEvent pc.2))) with _ | l
      · have h1 := (minList_eq_none _).mp hr
        have h2 := (minList_eq_none _).mp hn
        have hall := (events_all_closed_iff _).mp ⟨h1, h2⟩
        intro pc hpc
        exact hall _ (List.mem_map_of_mem _ hpc)
      · unfold eventMulti at h
        rw [hr, hn] at h
        exact absurd h (by simp)
    · unfold eventMulti at h
      rw [hr] at h
      exact absurd h (by simp)
  · intro hall
    have hev : ∀ e ∈ im.map (fun pc => nextEvent pc.2), e = .Closed := by
      intro e he
      obtain ⟨pc, hpc, rfl⟩ := List.mem_map.mp he
      exact hall pc hpc
    obtain ⟨h1, h2⟩ := (events_all_closed_iff _).mpr hev
    unfold eventMulti
    rw [h1, h2]
    rfl

theorem eventStep_nil {T LT : Type} (st : SwitchState T LT) (hm : st.inMap = []) :
    eventStep st = .quit := by
  obtain ⟨im, om, pol, lat, clk, arc, asc⟩ := st
  simp only at hm
  subst hm
  rfl

theorem eventStep_single {T LT : Type} (st : SwitchState T LT) (id : PortId)
    (ch : InChan T) (hm : st.inMap = [(id, ch)]) :
    eventStep st = match ch.queue with
      | _ :: _ => .ready st.clock [id]
      | [] => if ch.closed then .quit else .blocked := by
  obtain ⟨im, om, pol, lat, clk, arc, asc⟩ := st
  simp only at hm
  subst hm
  rfl

theorem eventStep_multi {T LT : Type} (st : SwitchState T LT)
    (a b : PortId × InChan T) (tl : List (PortId × InChan T))
    (hm : st.inMap = a :: b :: tl) :
    eventStep st = eventMulti st.clock st.inMap := by
  obtain ⟨im, om, pol, lat, clk, arc, asc⟩ := st
  simp only at hm
  subst hm
  rfl

theorem runStep_inl_iff {T LT : Type} [DecidableEq LT] (dest : T → LT)
    (st : SwitchState T LT) :
    runStep dest st = some (Sum.inl st) ↔ eventStep st = .quit := by
  constructor
  · intro h
    rcases he : eventStep st with _ | _ | ⟨c, set⟩ | c
    · rfl
    · unfold runStep at h
      rw [he] at h
      exact Option.noConfusion h
    · rw [runStep_ready dest st c set he] at h
      rcases hp : processPass dest { st with clock := c } set [] with _ | st2 <;>
        rw [hp] at h <;> simp at h
    · rw [runStep_retry dest st c he] at h
      simp at h
  · exact runStep_quit dest st

theorem runN_clock_le {T LT : Type} [DecidableEq LT] (dest : T → LT)
    (n : Nat) (st st' : SwitchState T LT) (b : Bool)
    (h : runN dest n st = some (st', b)) : st.clock ≤ st'.clock := by
  induction n generalizing st with
  | zero =>
    simp [runN] at h
    rw [h.1]
  | succ n ih =>
    unfold runN at h
    rcases hr : runStep dest st with _ | ⟨sF⟩ | ⟨sC⟩
    · rw [hr] at h
      exact absurd h (by simp)
    · rw [hr] at h
      simp at h
      have := runStep_inl_eq dest st sF hr
      rw [h.1] at this
      rw [this]
    · rw [hr] at h
      exact le_trans (runStep_inr_clock_le dest st sC hr) (ih sC h)

theorem insertA_dup {κ : Type} [DecidableEq κ] {α : Type} (m : List (κ × α))
    (k : κ) (v old : α) (h : lookupA m k = some old) :
    insertA m k v = (some old, updateAssoc m k (fun _ => v)) := by
  unfold insertA
  rw [h]

theorem insertA_fresh {κ : Type} [DecidableEq κ] {α : Type} (m : List (κ × α))
    (k : κ) (v : α) (h : lookupA m k = none) :
    insertA m k v = (none, m ++ [(k, v)]) := by
  unfold insertA
  rw [h]

theorem addPortOutput_none {T LT : Type} (sw : SwitchState T LT) (p : Port T)
    (h : p.output = none) : addPortOutput sw p = (sw, true) := by
  unfold addPortOutput
  rw [h]

theorem addPortOutput_some {T LT : Type} (sw : SwitchState T LT) (p : Port T)
    (snd : OutChan T) (h : p.output = some snd) :
    addPortOutput sw p =
      ({ sw with attachedSenders := sw.attachedSenders + 1,
                 outMap := (insertA sw.outMap p.id snd).2 },
       (insertA sw.outMap p.id snd).1.isNone) := by
  unfold addPortOutput
  rw [h]

theorem addPort_none {T LT : Type} (sw : SwitchState T LT) (p : Port T)
    (h : p.input = none) : addPort sw p = addPortOutput sw p := by
  unfold addPort
  rw [h]

theorem addPort_some_dup {T LT : Type} (sw : SwitchState T LT) (p : Port T)
    (rcv old : InChan T) (hin : p.input = some rcv)
    (hdup : lookupA sw.inMap p.id = some old) :
    addPort sw p =
      ({ sw with attachedReceivers := sw.attachedReceivers + 1,
                 inMap := updateAssoc sw.inMap p.id (fun _ => rcv) }, false) := by
  simp only [addPort, hin]
  rw [insertA_dup sw.inMap p.id rcv old hdup]
  simp

theorem addPort_some_fresh {T LT : Type} (sw : SwitchState T LT) (p : Port T)
    (rcv : InChan T) (hin : p.input = some rcv)
    (hfresh : lookupA sw.inMap p.id = none) :
    addPort sw p =
      addPortOutput { sw with attachedReceivers := sw.attachedReceivers + 1,
                              inMap := sw.inMap ++ [(p.id, rcv)] } p := by
  simp only [addPort, hin]
  rw [insertA_fresh sw.inMap p.id rcv hfresh]
  simp

theorem processInput_eq {T LT : Type} [DecidableEq LT] (dest : T → LT)
    (st : SwitchState T LT) (occ : List PortId) (port : PortId)
    (ch : InChan T) (t0 : Time) (d : T) (rest : List (Time × T))
    (targets : List PortId)
    (hch : lookupA st.inMap port = some ch)
    (hq : ch.queue = (t0, d) :: rest)
    (hr : route st.policy (dest d) = some targets) :
    processInput dest st occ port =
      if intersects occ targets then some (st, occ)
      else if targets.all (fun x => (lookupA st.outMap x).isSome) then
        some ({ st with inMap := dequeueAt st.inMap port,
                        outMap := enqueueAll st.outMap targets (st.clock + st.latency, d) },
              occ ++ targets)
      else none := by
  unfold processInput
  rw [hch]
  simp only [hq, hr]

/-- C1: in the multi-input event-determination path the claim says the
ready set consists of the input port ids (the keys of `in_map`) whose
peeked item has timestamp `≤ T`.  The source instead collects the
enumeration indices of the `in_map.values()` iteration
(`readySetSource`): on a mapping with keys 3 and 7, both ready at the
minimum time `T = 5`, it produces `[0, 1]` instead of the keys `[3, 7]`,
and `run`'s subsequent key lookups (`in_map.get(&input_port).unwrap()`)
find nothing — the code contradicts its own callers, so this is a code
bug, not a spec error. -/
theorem c1_multi_ready_set_uses_indices :
    readySetSource inMapC1 5 = [0, 1] ∧
    inMapC1.map (fun pc => pc.1) = [3, 7] ∧
    readySetKeys inMapC1 5 = [3, 7] ∧
    lookupA inMapC1 0 = none ∧
    lookupA inMapC1 1 = none := by decide

/-- C2 counterexample: the claim says a multi-input pass that jumped the
clock to a strictly later ready time `T` applies no additional one-tick
advance before looping back.  On `stC2` the pass jumps from clock 0 to
`T = 5`, yet the continuation clock is 6, not 5: `self.time.incr_cycles(1)`
at `simple.rs` line 74 runs unconditionally. -/
theorem c2_counterexample :
    stC2.inMap.length = 2 ∧
    stC2.clock = 0 ∧
    eventStep stC2 = .ready 5 [0, 1] ∧
    contClock (runStep destU stC2) = 6 ∧
    contClock (runStep destU stC2) ≠ 5 := by decide

/-- C2 (amended): after every ready-set pass — single-input or
multi-input, whether or not the pass jumped the clock — the engine
advances virtual time by exactly one tick beyond the clock value the pass
ran at: if event determination produced clock `c` and the loop continues
with state `st'`, then `st'.clock = c + 1`. -/
theorem c2_post_pass_tick {T LT : Type} [DecidableEq LT] (dest : T → LT)
    (st : SwitchState T LT) (c : Time) (set : List PortId)
    (st' : SwitchState T LT) (he : eventStep st = .ready c set)
    (hr : runStep dest st = some (Sum.inr st')) : st'.clock = c + 1 := by
  rw [runStep_ready dest st c set he] at hr
  rcases hp : processPass dest { st with clock := c } set [] with _ | st2 <;>
    rw [hp] at hr <;> simp at hr
  have hc2 : st2.clock = c := processPass_clock dest set _ [] st2 hp
  have hst : st'.clock = st2.clock + 1 := by rw [← hr]
  rw [hst, hc2]

/-- Witness for C2's amended theorem at the concrete state `stC2`: the
pass jumps to 5 and the continuation clock is `5 + 1`. -/
theorem c2_post_pass_tick_witness : contClock (runStep destU stC2) = 5 + 1 := by
  rcases hr : runStep destU stC2 with _ | s
  · exact absurd hr (by decide)
  · rcases s with s | s
    · have hs := runStep_inl_eq destU stC2 s hr
      subst hs
      exact absurd hr (by decide)
    · exact c2_post_pass_tick destU stC2 5 [0, 1] s (by decide) hr

/-- C5: the run loop terminates exactly under the closure conditions — a
switch with no inputs terminates immediately with its state untouched; a
single-input switch terminates exactly when that input is exhausted and
closed; a multi-input switch terminates exactly when every input is
exhausted and closed, a condition independent of any order of closure. -/
theorem c5_termination {T LT : Type} [DecidableEq LT] (dest : T → LT)
    (st : SwitchState T LT) :
    (st.inMap = [] → runStep dest st = some (Sum.inl st)) ∧
    (∀ id ch, st.inMap = [(id, ch)] →
      (runStep dest st = some (Sum.inl st) ↔ ch.queue = [] ∧ ch.closed = true)) ∧
    (∀ a b tl, st.inMap = a :: b :: tl →
      (runStep dest st = some (Sum.inl st) ↔
        ∀ pc ∈ st.inMap, pc.2.queue = [] ∧ pc.2.closed = true)) := by
  refine ⟨fun hm => runStep_quit dest st (eventStep_nil st hm), ?_, ?_⟩
  · intro id ch hm
    rw [runStep_inl_iff, eventStep_single st id ch hm]
    rcases hq : ch.queue with _ | ⟨hd, rest⟩
    · by_cases hc : ch.closed <;> simp [hc]
    · simp
  · intro a b tl hm
    rw [runStep_inl_iff, eventStep_multi st a b tl hm, eventMulti_quit_iff]
    exact ⟨fun h pc hpc => (nextEvent_closed_iff pc.2).mp (h pc hpc),
           fun h pc hpc => (nextEvent_closed_iff pc.2).mpr (h pc hpc)⟩

/-- Witness for C5 at concrete states: a zero-input switch, a single
closed input, and two closed inputs all terminate. -/
theorem c5_termination_witness :
    runStep destU stEmpty = some (Sum.inl stEmpty) ∧
    runStep destU stSingleClosed = some (Sum.inl stSingleClosed) ∧
    runStep destU stClosed2 = some (Sum.inl stClosed2) :=
  ⟨(c5_termination destU stEmpty).1 rfl,
   ((c5_termination destU stSingleClosed).2.1 0 chC rfl).mpr (by decide),
   ((c5_termination destU stClosed2).2.2 (0, chC) (1, chC) [] rfl).mpr (by decide)⟩

/-- C8: in the multi-input path, when no input reports a concrete ready
time and the minimum next-event status is `Nothing` with lower bound `l`
(at or after the current clock), the engine advances virtual time to
`l + 1` and loops back to event determination: it neither returns a ready
set nor terminates on that iteration. -/
theorem c8_nothing_fallback {T LT : Type} [DecidableEq LT] (dest : T → LT)
    (st : SwitchState T LT) (a b : PortId × InChan T)
    (tl : List (PortId × InChan T)) (l : Time)
    (hm : st.inMap = a :: b :: tl)
    (hready : readyTimesOf (st.inMap.map (fun pc => nextEvent pc.2)) = [])
    (hmin : minList (nothingTimesOf (st.inMap.map (fun pc => nextEvent pc.2))) = some l)
    (hclk : st.clock ≤ l) :
    eventStep st = .retry (l + 1) ∧
    runStep dest st = some (Sum.inr { st with clock := l + 1 }) := by
  have he : eventStep st = .retry (l + 1) := by
    rw [eventStep_multi st a b tl hm]
    unfold eventMulti
    rw [hready, hmin]
    have hmax : max st.clock (l + 1) = l + 1 :=
      Nat.max_eq_right (Nat.le_trans hclk (Nat.le_succ l))
    simp [minList, hmax]
  exact ⟨he, runStep_retry dest st (l + 1) he⟩

/-- Witness for C8 at the concrete state `stC8`: two empty open inputs
with lower bounds 4 and 7 and clock 2 produce a retry at `4 + 1`. -/
theorem c8_nothing_fallback_witness :
    eventStep stC8 = .retry (4 + 1) ∧
    runStep destU stC8 = some (Sum.inr { stC8 with clock := 4 + 1 }) :=
  c8_nothing_fallback destU stC8 (0, chN 4) (1, chN 7) [] 4 rfl (by decide)
    (by decide) (by decide)

/-- C9: virtual time never regresses — every clock operation of the
engine (the jump to a computed ready time, the nothing-scheduled fallback
advance, and the run loop as a whole over any number of iterations)
leaves the clock at or above its previous value. -/
theorem c9_clock_monotone {T LT : Type} [DecidableEq LT] (dest : T → LT)
    (st : SwitchState T LT) :
    (∀ c set, eventStep st = .ready c set → st.clock ≤ c) ∧
    (∀ c, eventStep st = .retry c → st.clock ≤ c) ∧
    (∀ n st' b, runN dest n st = some (st', b) → st.clock ≤ st'.clock) :=
  ⟨fun c set h => eventStep_ready_clock_le st c set h,
   fun c h => eventStep_retry_clock_le st c h,
   fun n st' b h => runN_clock_le dest n st st' b h⟩

/-- Witness for C9 at the concrete state `stW`: one loop iteration never
lowers the clock. -/
theorem c9_clock_monotone_witness : stW.clock ≤ runClock (runN destU 1 stW) := by
  rcases hr : runN destU 1 stW with _ | ⟨s, b⟩
  · exact absurd hr (by decide)
  · exact (c9_clock_monotone destU stW).2.2 1 s b hr

/-- C3: when a ready input's target set intersects the
`occupied_outputs` accumulated so far, the engine skips that input without
dequeuing it — the state and accumulator are returned unchanged, so the
item stays at the head of the input and no output receives anything from
it in this step; and in every successful outcome of the per-input step the
packet is delivered either to all of its targets or to none (never a
proper subset). -/
theorem c3_atomic_skip {T LT : Type} [DecidableEq LT] (dest : T → LT)
    (st : SwitchState T LT) (occ : List PortId) (port : PortId)
    (ch : InChan T) (t0 : Time) (d : T) (rest : List (Time × T))
    (targets : List PortId)
    (hch : lookupA st.inMap port = some ch)
    (hq : ch.queue = (t0, d) :: rest)
    (hr : route st.policy (dest d) = some targets)
    (hnd : targets.Nodup) :
    (intersects occ targets = true → processInput dest st occ port = some (st, occ)) ∧
    (∀ st' occ', processInput dest st occ port = some (st', occ') →
      st' = st ∨
      ∀ x ∈ targets, lookupA st'.outMap x =
        (lookupA st.outMap x).map (fun q => q ++ [(st.clock + st.latency, d)])) := by
  have hpi := processInput_eq dest st occ port ch t0 d rest targets hch hq hr
  constructor
  · intro hi
    rw [hpi, if_pos hi]
  · intro st' occ' h
    rw [hpi] at h
    by_cases hi : intersects occ targets = true
    · rw [if_pos hi] at h
      simp only [Option.some.injEq, Prod.mk.injEq] at h
      exact Or.inl h.1.symm
    · rw [if_neg hi] at h
      by_cases hp : targets.all (fun x => (lookupA st.outMap x).isSome) = true
      · rw [if_pos hp] at h
        simp only [Option.some.injEq, Prod.mk.injEq] at h
        refine Or.inr fun x hx => ?_
        rw [← h.1]
        exact lookupA_enqueueAll_mem st.outMap targets _ x hnd hx
      · rw [if_neg hp] at h
        exact Option.noConfusion h

/-- Witness for C3 at a concrete state: with output 0 already occupied,
the second input targeting output 0 is skipped and nothing changes. -/
theorem c3_atomic_skip_witness : processInput destU stC2 [0] 0 = some (stC2, [0]) :=
  (c3_atomic_skip destU stC2 [0] 0 (chR 5) 5 () [] [0] (by decide) (by decide)
    (by decide) (by decide)).1 (by decide)

/-- C4: an accepted packet is enqueued on every output of its target set
as an identical copy carrying delivery timestamp `clock + latency`, where
`clock` is the decision-time virtual clock and `latency` the configured
(non-negative, here arbitrary) latency; all targets receive the same
timestamp. -/
theorem c4_latency_exact {T LT : Type} [DecidableEq LT] (dest : T → LT)
    (st : SwitchState T LT) (occ : List PortId) (port : PortId)
    (ch : InChan T) (t0 : Time) (d : T) (rest : List (Time × T))
    (targets : List PortId)
    (hch : lookupA st.inMap port = some ch)
    (hq : ch.queue = (t0, d) :: rest)
    (hr : route st.policy (dest d) = some targets)
    (hnd : targets.Nodup)
    (hni : intersects occ targets = false)
    (hpres : ∀ x ∈ targets, (lookupA st.outMap x).isSome = true) :
    processInput dest st occ port =
      some ({ st with inMap := dequeueAt st.inMap port,
                      outMap := enqueueAll st.outMap targets (st.clock + st.latency, d) },
            occ ++ targets) ∧
    ∀ x ∈ targets, ∃ q, lookupA st.outMap x = some q ∧
      lookupA (enqueueAll st.outMap targets (st.clock + st.latency, d)) x =
        some (q ++ [(st.clock + st.latency, d)]) := by
  have hall : targets.all (fun x => (lookupA st.outMap x).isSome) = true :=
    List.all_eq_true.mpr hpres
  constructor
  · rw [processInput_eq dest st occ port ch t0 d rest targets hch hq hr,
        if_neg (by rw [hni]; exact Bool.false_ne_true), if_pos hall]
  · intro x hx
    have hsome := hpres x hx
    rcases hq2 : lookupA st.outMap x with _ | q
    · rw [hq2] at hsome
      exact absurd hsome (by simp)
    · refine ⟨q, rfl, ?_⟩
      rw [lookupA_enqueueAll_mem st.outMap targets _ x hnd hx, hq2]
      rfl

/-- Witness for C4 at a concrete state: the first input of `stC2` is
accepted and output 0 receives the copy stamped `clock + latency`. -/
theorem c4_latency_exact_witness :
    processInput destU stC2 [] 0 =
      some ({ stC2 with inMap := dequeueAt stC2.inMap 0,
                        outMap := enqueueAll stC2.outMap [0]
                          (stC2.clock + stC2.latency, ()) }, [] ++ [0]) :=
  (c4_latency_exact destU stC2 [] 0 (chR 5) 5 () [] [0] (by decide) (by decide)
    (by decide) (by decide) (by decide) (by decide)).1

/-- C6: `add_port` panics exactly on id collisions — a duplicate input id
(with an input endpoint present) or a duplicate output id (with an output
endpoint present) makes the call abort, while fresh ids on every present
side make it succeed with the endpoints registered under the port id. -/
theorem c6_add_port {T LT : Type} (sw : SwitchState T LT) (p : Port T) :
    ((∃ rcv old, p.input = some rcv ∧ lookupA sw.inMap p.id = some old) →
      (addPort sw p).2 = false) ∧
    ((∃ snd old, p.output = some snd ∧ lookupA sw.outMap p.id = some old) →
      (addPort sw p).2 = false) ∧
    ((∀ rcv, p.input = some rcv → lookupA sw.inMap p.id = none) →
     (∀ snd, p.output = some snd → lookupA sw.outMap p.id = none) →
      (addPort sw p).2 = true ∧
      (∀ rcv, p.input = some rcv → lookupA (addPort sw p).1.inMap p.id = some rcv) ∧
      (∀ snd, p.output = some snd → lookupA (addPort sw p).1.outMap p.id = some snd)) := by
  refine ⟨?_, ?_, ?_⟩
  · rintro ⟨rcv, old, hin, hdup⟩
    rw [addPort_some_dup sw p rcv old hin hdup]
  · rintro ⟨snd, old, hout, hdup⟩
    rcases hin : p.input with _ | rcv
    · rw [addPort_none sw p hin, addPortOutput_some sw p snd hout,
          insertA_dup sw.outMap p.id snd old hdup]
      rfl
    · rcases hl : lookupA sw.inMap p.id with _ | old2
      · rw [addPort_some_fresh sw p rcv hin hl, addPortOutput_some _ p snd hout]
        have : lookupA ({ sw with attachedReceivers := sw.attachedReceivers + 1,
                                  inMap := sw.inMap ++ [(p.id, rcv)] } :
            SwitchState T LT).outMap p.id = some old := hdup
        rw [insertA_dup _ p.id snd old this]
        rfl
      · rw [addPort_some_dup sw p rcv old2 hin hl]
  · intro hfin hfout
    rcases hin : p.input with _ | rcv
    · rcases hout : p.output with _ | snd
      · rw [addPort_none sw p hin, addPortOutput_none sw p hout]
        exact ⟨rfl,
          fun rcv h => Option.noConfusion h,
          fun snd h => Option.noConfusion h⟩
      · have hfo := hfout snd hout
        rw [addPort_none sw p hin, addPortOutput_some sw p snd hout,
            insertA_fresh sw.outMap p.id snd hfo]
        refine ⟨rfl, fun rcv h => Option.noConfusion h, fun snd' h => ?_⟩
        obtain rfl := Option.some.inj h
        show lookupA (sw.outMap ++ [(p.id, snd)]) p.id = some snd
        exact lookupA_append_self sw.outMap p.id snd hfo
    · have hfi := hfin rcv hin
      rw [addPort_some_fresh sw p rcv hin hfi]
      rcases hout : p.output with _ | snd
      · rw [addPortOutput_none _ p hout]
        refine ⟨rfl, fun rcv' h => ?_, fun snd h => Option.noConfusion h⟩
        obtain rfl := Option.some.inj h
        show lookupA (sw.inMap ++ [(p.id, rcv)]) p.id = some rcv
        exact lookupA_append_self sw.inMap p.id rcv hfi
      · have hfo := hfout snd hout
        rw [addPortOutput_some _ p snd hout]
        have hfo2 : lookupA ({ sw with attachedReceivers := sw.attachedReceivers + 1,
                                       inMap := sw.inMap ++ [(p.id, rcv)] } :
            SwitchState T LT).outMap p.id = none := hfo
        rw [insertA_fresh _ p.id snd hfo2]
        refine ⟨rfl, fun rcv' h => ?_, fun snd' h => ?_⟩
        · obtain rfl := Option.some.inj h
          show lookupA (sw.inMap ++ [(p.id, rcv)]) p.id = some rcv
          exact lookupA_append_self sw.inMap p.id rcv hfi
        · obtain rfl := Option.some.inj h
          show lookupA (sw.outMap ++ [(p.id, snd)]) p.id = some snd
          exact lookupA_append_self sw.outMap p.id snd hfo

/-- Witness for C6 at concrete states: a duplicate input id aborts, and a
fresh bidirectional port registers both endpoints and succeeds. -/
theorem c6_add_port_witness :
    (addPort swDup portDupIn).2 = false ∧
    (addPort stEmpty portFresh).2 = true ∧
    lookupA (addPort stEmpty portFresh).1.inMap portFresh.id = some (chR 1) ∧
    lookupA (addPort stEmpty portFresh).1.outMap portFresh.id = some [] := by
  have h3 := (c6_add_port stEmpty portFresh).2.2
    (fun rcv h => by decide) (fun snd h => by decide)
  exact ⟨(c6_add_port swDup portDupIn).1 ⟨chR 1, chN 0, rfl, by decide⟩,
    h3.1, h3.2.1 (chR 1) rfl, h3.2.2 [] rfl⟩

/-- C7: the static-table policy panics on a destination absent from the
table, and on a present destination returns the stored output-port-id set
as a value while leaving the policy's own storage unchanged (the returned
set is a copy of, not a live alias into, the table). -/
theorem c7_static_route {LT : Type} [DecidableEq LT]
    (policy : List (LT × List PortId)) (t : LT) :
    ((∀ s, (t, s) ∉ policy) → routeMut policy t = none) ∧
    (∀ s, route policy t = some s →
      (t, s) ∈ policy ∧ routeMut policy t = some (s, policy)) := by
  constructor
  · intro h
    have hnone : route policy t = none := lookupA_eq_none_of_not_mem policy t h
    unfold routeMut
    rw [hnone]
  · intro s hs
    refine ⟨lookupA_mem policy t s hs, ?_⟩
    unfold routeMut
    rw [hs]

/-- Witness for C7 at concrete tables: a hit returns the stored set with
the table unchanged; a lookup on an empty table panics. -/
theorem c7_static_route_witness :
    routeMut policyW () = some ([1, 2], policyW) ∧
    routeMut ([] : List (Unit × List PortId)) () = none :=
  ⟨((c7_static_route policyW ()).2 [1, 2] (by decide)).2,
   (c7_static_route ([] : List (Unit × List PortId)) ()).1 (fun s => by simp)⟩

/-- C10: `add_port` on a duplicate id on either side is not atomic —
before the assertion aborts the call, the new endpoint on that side has
been attached to the scheduling substrate (the side's attachment count
grows) and has replaced the previous endpoint under that id in the
side's mapping.  A duplicate input id exhibits this directly; a
duplicate output id exhibits it whenever the input side did not already
abort (no input endpoint, or a fresh input id), since the input-side
assertion fires first in the source. -/
theorem c10_add_port_not_atomic {T LT : Type} (sw : SwitchState T LT) (p : Port T) :
    (∀ rcv old, p.input = some rcv → lookupA sw.inMap p.id = some old →
      (addPort sw p).2 = false ∧
      lookupA (addPort sw p).1.inMap p.id = some rcv ∧
      (addPort sw p).1.attachedReceivers = sw.attachedReceivers + 1) ∧
    (∀ snd old, p.output = some snd → lookupA sw.outMap p.id = some old →
      (∀ rcv, p.input = some rcv → lookupA sw.inMap p.id = none) →
      (addPort sw p).2 = false ∧
      lookupA (addPort sw p).1.outMap p.id = some snd ∧
      (addPort sw p).1.attachedSenders = sw.attachedSenders + 1) := by
  constructor
  · intro rcv old hin hdup
    rw [addPort_some_dup sw p rcv old hin hdup]
    refine ⟨rfl, ?_, rfl⟩
    show lookupA (updateAssoc sw.inMap p.id (fun _ => rcv)) p.id = some rcv
    rw [lookupA_updateAssoc_self, hdup]
    rfl
  · intro snd old hout hdup hfin
    rcases hin : p.input with _ | rcv
    · rw [addPort_none sw p hin, addPortOutput_some sw p snd hout,
          insertA_dup sw.outMap p.id snd old hdup]
      refine ⟨rfl, ?_, rfl⟩
      show lookupA (updateAssoc sw.outMap p.id (fun _ => snd)) p.id = some snd
      rw [lookupA_updateAssoc_self, hdup]
      rfl
    · have hfi := hfin rcv hin
      rw [addPort_some_fresh sw p rcv hin hfi, addPortOutput_some _ p snd hout]
      have hdup2 : lookupA ({ sw with attachedReceivers := sw.attachedReceivers + 1,
                                      inMap := sw.inMap ++ [(p.id, rcv)] } :
          SwitchState T LT).outMap p.id = some old := hdup
      rw [insertA_dup _ p.id snd old hdup2]
      refine ⟨rfl, ?_, rfl⟩
      show lookupA (updateAssoc sw.outMap p.id (fun _ => snd)) p.id = some snd
      rw [lookupA_updateAssoc_self, hdup]
      rfl

/-- Witness for C10 at concrete states: attaching a second input under
id 4 aborts with the mapping already holding the new input endpoint and
the receiver-attachment count grown; attaching a second output under
id 9 aborts with the mapping already holding the new output endpoint and
the sender-attachment count grown. -/
theorem c10_add_port_not_atomic_witness :
    ((addPort swDup portDupIn).2 = false ∧
     lookupA (addPort swDup portDupIn).1.inMap portDupIn.id = some (chR 1) ∧
     (addPort swDup portDupIn).1.attachedReceivers = swDup.attachedReceivers + 1) ∧
    ((addPort swDup portDupOut).2 = false ∧
     lookupA (addPort swDup portDupOut).1.outMap portDupOut.id = some [(1, ())] ∧
     (addPort swDup portDupOut).1.attachedSenders = swDup.attachedSenders + 1) :=
  ⟨(c10_add_port_not_atomic swDup portDupIn).1 (chR 1) (chN 0) rfl (by decide),
   (c10_add_port_not_atomic swDup portDupOut).2 [(1, ())] [] rfl (by decide)
     (fun rcv h => Option.noConfusion h)⟩

end DamNetworks
